import Mathlib

/-!
# tsh: job control of a tiny shell

A shallow embedding of `tsh.c` (functions `eval`, `builtin_cmd`, `do_bgfg`,
`waitfg`, `sigchld_handler`, `sigint_handler`, `sigtstp_handler`) and proofs
about its job-control behaviour.

The shell is a single thread interrupted by signal handlers.  The state
`Shell` holds the job table, whether SIGCHLD is in the signal mask, and the
ordered list of the system calls and table operations performed so far.  What
the kernel hands to the shell (the result of `Fork`, the child statuses that
`waitpid` returns to the SIGCHLD handler) is an explicit argument.
-/

namespace Tsh

/-! ## C library -/

/-- Character code of `s[i]`; the terminating NUL (code 0) is read at the end of the string. -/
def charAt (s : String) (i : Nat) : Nat :=
  match s.data.get? i with
  | some c => c.toNat
  | none => 0

/-- C `isalpha` in the C locale. -/
def isalpha (c : Nat) : Bool :=
  (65 ≤ c && c ≤ 90) || (97 ≤ c && c ≤ 122)

/-- C `isspace` in the C locale. -/
def isspace (c : Nat) : Bool :=
  c = 32 || (9 ≤ c && c ≤ 13)

/-- C `isdigit`. -/
def isdigit (c : Nat) : Bool :=
  48 ≤ c && c ≤ 57

/-- Digit loop of `atoi`: consume decimal digits, stop at the first other character. -/
def atoi_digits : List Char → Int → Int
  | [], acc => acc
  | c :: cs, acc =>
    if isdigit c.toNat then atoi_digits cs (acc * 10 + ((c.toNat : Int) - 48)) else acc

/-- C `atoi`: skip white space, read an optional sign, then the leading decimal digits
(0 when there are none).  Values outside `int` are undefined in C and are not wrapped here. -/
def atoi (s : String) : Int :=
  match s.data.dropWhile (fun c => isspace c.toNat) with
  | [] => 0
  | c :: cs =>
    if c.toNat = 45 then - atoi_digits cs 0
    else if c.toNat = 43 then atoi_digits cs 0
    else atoi_digits (c :: cs) 0

/-- The `%d` conversion of `printf`. -/
def fmt_d (n : Int) : String := toString n

/-! ## Job table -/

/-- Job states `FG`, `BG`, `ST` as used in `tsh.c`. -/
inductive JobState
  | FG
  | BG
  | ST
deriving DecidableEq, Repr

/-- The fields of `struct job_t` that `tsh.c` reads and writes. -/
structure job_t where
  pid : Int
  jid : Int
  state : JobState
  cmdline : String
deriving DecidableEq, Repr

/-- Modelled from the spec: `jobs.h` and `jobs.c` (the type behind
`static struct job_t jobs[MAXJOBS]`, and `initjobs`, `addjob`, `deletejob`,
`getjobpid`, `getjobjid`, `fgpid`, `listjobs`) are not among the sources.
The table is the fixed-capacity slot array of the spec: one entry per slot, a free
slot is `none` (removal is not a state value), and a next-jid counter.  A job handle
(`struct job_t *`) is a slot index, `NULL` is `none`. -/
structure JobTable where
  slots : List (Option job_t)
  nextjid : Int
deriving DecidableEq, Repr

/-- Index of the first occupied slot whose job satisfies `p`. -/
def findSlot (p : job_t → Bool) : List (Option job_t) → Option Nat
  | [] => none
  | some j :: rest => if p j then some 0 else (findSlot p rest).map (· + 1)
  | none :: rest => (findSlot p rest).map (· + 1)

/-- Index of the first free slot. -/
def freeSlot : List (Option job_t) → Option Nat
  | [] => none
  | none :: _ => some 0
  | some _ :: rest => (freeSlot rest).map (· + 1)

/-- Modelled from the spec: `initjobs` of `jobs.c`; a table of `MAXJOBS` free slots. -/
def initjobs (MAXJOBS : Nat) : JobTable :=
  { slots := List.replicate MAXJOBS none, nextjid := 1 }

/-- Modelled from the spec: `getjobpid` of `jobs.c`, find-by-pid giving an optional handle. -/
def getjobpid (t : JobTable) (pid : Int) : Option Nat :=
  findSlot (fun j => j.pid = pid) t.slots

/-- Modelled from the spec: `getjobjid` of `jobs.c`, find-by-jid giving an optional handle. -/
def getjobjid (t : JobTable) (jid : Int) : Option Nat :=
  findSlot (fun j => j.jid = jid) t.slots

/-- Modelled from the spec: `addjob` of `jobs.c`; the job takes the first free slot and the
next jid, and the add fails, leaving the table as it is, when no slot is free. -/
def addjob (t : JobTable) (pid : Int) (state : JobState) (cmdline : String) :
    JobTable × Option Nat :=
  match freeSlot t.slots with
  | none => (t, none)
  | some i =>
    ({ slots := t.slots.set i (some { pid := pid, jid := t.nextjid, state := state,
                                      cmdline := cmdline }),
       nextjid := t.nextjid + 1 }, some i)

/-- Modelled from the spec: `deletejob` of `jobs.c`; frees the slot of the job with this
pid and reports whether there was one.  The jid counter only advances, except that it is
reset once the table is empty. -/
def deletejob (t : JobTable) (pid : Int) : JobTable × Bool :=
  match getjobpid t pid with
  | none => (t, false)
  | some i =>
    let slots := t.slots.set i none
    ({ slots := slots, nextjid := if slots.all Option.isNone then 1 else t.nextjid }, true)

/-- Modelled from the spec: `fgpid` of `jobs.c`; pid of the foreground job, 0 when there
is none. -/
def fgpid (t : JobTable) : Int :=
  match findSlot (fun j => j.state = JobState.FG) t.slots with
  | some i => match (t.slots.getD i none) with
    | some j => j.pid
    | none => 0
  | none => 0

/-- The slot a handle points to. -/
def slotAt (t : JobTable) (h : Nat) : Option job_t := t.slots.getD h none

/-- Read of `job->state`; a freed slot holds none of `FG`, `BG`, `ST`. -/
def stateAt (t : JobTable) (h : Nat) : Option JobState := (slotAt t h).map (·.state)

/-- Read of `job->pid`; a freed slot reads 0, the value `sigint_handler` tests `fgpid` against. -/
def pidAt (t : JobTable) (h : Nat) : Int :=
  match slotAt t h with
  | some j => j.pid
  | none => 0

/-- Read of `job->jid`; a freed slot reads 0. -/
def jidAt (t : JobTable) (h : Nat) : Int :=
  match slotAt t h with
  | some j => j.jid
  | none => 0

/-- Read of `job->cmdline`; a freed slot reads the empty string. -/
def cmdlineAt (t : JobTable) (h : Nat) : String :=
  match slotAt t h with
  | some j => j.cmdline
  | none => ""

/-- Write `job->state = st` through a handle. -/
def setState (t : JobTable) (h : Nat) (st : JobState) : JobTable :=
  match slotAt t h with
  | some j => { t with slots := t.slots.set h (some { j with state := st }) }
  | none => t

/-- Number of jobs in state `FG`. -/
def countFG (t : JobTable) : Nat :=
  t.slots.countP (fun o => o.map (·.state) = some JobState.FG)

/-- The jobs of the table, in slot order. -/
def liveJobs (t : JobTable) : List job_t := t.slots.filterMap id

/-- Insert a job into a list ordered by jid. -/
def insertByJid (j : job_t) : List job_t → List job_t
  | [] => [j]
  | k :: ks => if j.jid ≤ k.jid then j :: k :: ks else k :: insertByJid j ks

/-- Name of a state in the `jobs` listing. -/
def stateName : JobState → String
  | JobState.FG => "Foreground"
  | JobState.BG => "Background"
  | JobState.ST => "Stopped"

/-- Modelled from the spec: `listjobs` of `jobs.c`; one line `[jid] (pid) state command_line`
per job, by ascending jid. -/
def listjobs (t : JobTable) : String :=
  String.join (((liveJobs t).foldr insertByJid []).map fun j =>
    "[" ++ fmt_d j.jid ++ "] (" ++ fmt_d j.pid ++ ") " ++ stateName j.state ++ " " ++ j.cmdline)

/-! ## Shell state and observable actions -/

/-- Signals the shell sends. -/
inductive Signal
  | SIGINT
  | SIGTSTP
  | SIGCONT
deriving DecidableEq, Repr

/-- The `how` argument of `sigprocmask`; the set is always `{SIGCHLD}`. -/
inductive How
  | SIG_BLOCK
  | SIG_UNBLOCK
deriving DecidableEq, Repr

/-- A child status as `waitpid(-1, &status, WNOHANG|WUNTRACED)` reports it: `WIFEXITED`,
`WIFSIGNALED` with `WTERMSIG`, or `WIFSTOPPED` with `WSTOPSIG`. -/
inductive WStatus
  | exited (code : Nat)
  | signaled (sig : Int)
  | stopped (sig : Int)
deriving DecidableEq, Repr

/-- System calls and job-table calls, recorded in program order. -/
inductive Event
  | fork (pid : Int)
  | sigprocmask (how : How)
  | addjob (pid : Int) (state : JobState)
  | deletejob (pid : Int)
  | kill (pid : Int) (sig : Signal)
  | tcsetpgrp (pgrp : Int)
  | printf (text : String)
  | waitpid (pid : Int) (status : WStatus)
deriving DecidableEq, Repr

/-- State of the shell process: the job table, whether SIGCHLD is blocked, the actions
performed so far (oldest first), and every value the job table has been given, oldest first. -/
structure Shell where
  jobs : JobTable
  blocked : Bool
  trace : List Event
  tables : List JobTable
deriving DecidableEq, Repr

/-- How a piece of shell code ends: it returns, the process exits, it dereferences `NULL`,
it is still looping when the supplied child statuses are used up, or it is the forked child. -/
inductive Control
  | returned
  | exited (code : Nat)
  | segfault
  | spinning
  | child
deriving DecidableEq, Repr

/-- Outcome of running a piece of shell code. -/
structure Result where
  shell : Shell
  ctl : Control
deriving DecidableEq, Repr

/-- Record an action. -/
def Shell.emit (s : Shell) (e : Event) : Shell :=
  { s with trace := s.trace ++ [e] }

/-- Give the job table a new value. -/
def Shell.store (s : Shell) (t : JobTable) : Shell :=
  { s with jobs := t, tables := s.tables ++ [t] }

/-- Call `printf`. -/
def Shell.printf (s : Shell) (text : String) : Shell := s.emit (Event.printf text)

/-- Call `kill(pid, sig)`. -/
def Shell.kill (s : Shell) (pid : Int) (sig : Signal) : Shell := s.emit (Event.kill pid sig)

/-- Call `addjob(jobs, pid, state, cmdline)`; the return value is ignored by `tsh.c`. -/
def Shell.addjob (s : Shell) (pid : Int) (state : JobState) (cmdline : String) : Shell :=
  (s.emit (Event.addjob pid state)).store (Tsh.addjob s.jobs pid state cmdline).1

/-- Call `deletejob(jobs, pid)`; the return value is ignored by `tsh.c`. -/
def Shell.deletejob (s : Shell) (pid : Int) : Shell :=
  (s.emit (Event.deletejob pid)).store (Tsh.deletejob s.jobs pid).1

/-- Assignment `job->state = st`. -/
def Shell.setState (s : Shell) (h : Nat) (st : JobState) : Shell :=
  s.store (Tsh.setState s.jobs h st)

/-- Call `sigprocmask(how, &mask, NULL)` with `mask = {SIGCHLD}`. -/
def Shell.sigprocmask (s : Shell) (how : How) : Shell :=
  { s.emit (Event.sigprocmask how) with
    blocked := match how with
      | How.SIG_BLOCK => true
      | How.SIG_UNBLOCK => false }

/-- The code returns normally in state `s`. -/
def ret (s : Shell) : Result := { shell := s, ctl := Control.returned }

/-- Everything written by `printf`, concatenated. -/
def output : List Event → String
  | [] => ""
  | Event.printf text :: es => text ++ output es
  | _ :: es => output es

/-- The `kill` calls, in order. -/
def signals : List Event → List (Int × Signal)
  | [] => []
  | Event.kill pid sig :: es => (pid, sig) :: signals es
  | _ :: es => signals es

/-! ## The code of tsh.c -/

/-- Body of the `while` loop of `sigchld_handler` for one status collected by `waitpid`. -/
def sigchld_body (pid : Int) (status : WStatus) (s : Shell) : Result :=
  let s := s.emit (Event.waitpid pid status)
  match status with
  | WStatus.exited _ => ret (s.deletejob pid)
  | WStatus.signaled sig =>
    match getjobpid s.jobs pid with
    | none => { shell := s, ctl := Control.segfault }
    | some h =>
      let jid := jidAt s.jobs h
      let s := s.deletejob pid
      ret (s.printf ("Job [" ++ fmt_d jid ++ "] (" ++ fmt_d pid ++ ") terminated by signal "
        ++ fmt_d sig ++ "\n"))
  | WStatus.stopped sig =>
    match getjobpid s.jobs pid with
    | none => { shell := s, ctl := Control.segfault }
    | some h =>
      let s := s.setState h JobState.ST
      ret (s.printf ("Job [" ++ fmt_d (jidAt s.jobs h) ++ "] (" ++ fmt_d pid
        ++ ") stopped by signal: " ++ fmt_d sig ++ "\n"))

/-- One run of `sigchld_handler`: `reaped` lists what the successive `waitpid` calls return;
the loop ends when the list is used up or `waitpid` returns a value that is not positive. -/
def sigchld_handler : List (Int × WStatus) → Shell → Result
  | [], s => ret s
  | (pid, status) :: rest, s =>
    if pid > 0 then
      match sigchld_body pid status s with
      | { shell := s1, ctl := Control.returned } => sigchld_handler rest s1
      | r => r
    else ret s

/-- The function `sigint_handler`: forward `sig` to the process group of the foreground job,
if there is one. -/
def sigint_handler (sig : Signal) (s : Shell) : Shell :=
  let pid := fgpid s.jobs
  if pid ≠ 0 then s.kill (-pid) sig else s

/-- The function `sigtstp_handler`; its body is that of `sigint_handler`. -/
def sigtstp_handler (sig : Signal) (s : Shell) : Shell :=
  let pid := fgpid s.jobs
  if pid ≠ 0 then s.kill (-pid) sig else s

/-- The `while (job->state == FG) sleep(1);` loop of `waitfg`.  Each element of `ticks` is
what the SIGCHLD handler collects during one `sleep(1)`; the handler does not run while
SIGCHLD is blocked. -/
def waitfg_loop (h : Nat) : List (List (Int × WStatus)) → Shell → Result
  | ticks, s =>
    if stateAt s.jobs h = some JobState.FG then
      match ticks with
      | [] => { shell := s, ctl := Control.spinning }
      | reaped :: rest =>
        if s.blocked then waitfg_loop h rest s
        else
          match sigchld_handler reaped s with
          | { shell := s1, ctl := Control.returned } => waitfg_loop h rest s1
          | r => r
    else ret s

/-- The function `waitfg`: look the job up by pid, then loop on its state. -/
def waitfg (pid : Int) (ticks : List (List (Int × WStatus))) (s : Shell) : Result :=
  match getjobpid s.jobs pid with
  | none => { shell := s, ctl := Control.segfault }
  | some h => waitfg_loop h ticks s

/-- Lines 276-307 of `do_bgfg`: act on the job found (or on `NULL`). -/
def do_bgfg_act (cmd : String) (job : Option Nat) (ticks : List (List (Int × WStatus)))
    (s : Shell) : Result :=
  if cmd = "fg" then
    match job with
    | some h =>
      let pid := pidAt s.jobs h
      let s1 := if stateAt s.jobs h = some JobState.ST then s.kill (-pid) Signal.SIGCONT else s
      let s2 := s1.emit (Event.tcsetpgrp pid)
      let s3 := s2.setState h JobState.FG
      match waitfg pid ticks s3 with
      | { shell := s4, ctl := Control.returned } =>
        if stateAt s4.jobs h ≠ some JobState.ST then ret (s4.deletejob (pidAt s4.jobs h))
        else ret s4
      | r => r
    | none => ret (s.printf "fg command requires PID or %jobid argument\n")
  else if cmd = "bg" then
    match job with
    | some h =>
      let pid := pidAt s.jobs h
      let s1 := s.kill pid Signal.SIGCONT
      let s2 := s1.setState h JobState.BG
      ret (s2.printf ("[" ++ fmt_d (jidAt s2.jobs h) ++ "] (" ++ fmt_d pid ++ ") "
        ++ cmdlineAt s2.jobs h))
    | none => ret (s.printf "bg command requires PID or %jobid argument\n")
  else ret s

/-- The function `do_bgfg`; `argv[0]` is the command, `argv[1]` the argument if there is one. -/
def do_bgfg (argv : List String) (ticks : List (List (Int × WStatus))) (s : Shell) : Result :=
  let cmd := argv.getD 0 ""
  match argv.get? 1 with
  | some arg =>
    if charAt arg 0 = 37 then
      let jid : Int := (charAt arg 1 : Int) - 48
      match getjobjid s.jobs jid with
      | none =>
        let s1 := s.printf (if cmd = "bg" then "bg " else "fg ")
        ret (s1.printf ("%(" ++ fmt_d jid ++ "): No such job\n"))
      | some h => do_bgfg_act cmd (some h) ticks s
    else if isalpha (charAt arg 0) then
      let s1 := s.printf (if cmd = "bg" then "bg: " else "fg: ")
      ret (s1.printf "argument must be a PID or %jobid\n")
    else
      let pid := atoi arg
      match getjobpid s.jobs pid with
      | none => ret (s.printf ("(" ++ fmt_d (atoi arg) ++ "): No such process\n"))
      | some h => do_bgfg_act cmd (some h) ticks s
  | none => do_bgfg_act cmd none ticks s

/-- The function `builtin_cmd`; the second component is its return value. -/
def builtin_cmd (argv : List String) (ticks : List (List (Int × WStatus))) (s : Shell) :
    Result × Int :=
  let command := argv.getD 0 ""
  if command = "quit" then ({ shell := s, ctl := Control.exited 0 }, 0)
  else if command = "jobs" then (ret (s.printf (listjobs s.jobs)), 1)
  else if command = "bg" then (do_bgfg argv ticks s, 1)
  else if command = "fg" then (do_bgfg argv ticks s, 1)
  else if command = "&" then (ret s, 1)
  else (ret s, 0)

/-- What the kernel delivers to the SIGCHLD handler while `eval` runs: the statuses it
collects between `Fork` and `sigprocmask(SIG_BLOCK)` (if SIGCHLD is not blocked there), those
it collects when `sigprocmask(SIG_UNBLOCK)` takes effect, and those of each `sleep(1)`. -/
structure Env where
  afterFork : List (Int × WStatus)
  atUnblock : List (Int × WStatus)
  ticks : List (List (Int × WStatus))
deriving DecidableEq, Repr

/-- Lines 142-149 of `eval` in the parent (`forkpid > 0`): `Fork` has returned, the handler
may run if SIGCHLD is not blocked, then `sigprocmask(SIG_BLOCK)`. -/
def eval_fork_block (forkpid : Int) (env : Env) (s0 : Shell) : Result :=
  let s1 := s0.emit (Event.fork forkpid)
  match (if s1.blocked then ret s1 else sigchld_handler env.afterFork s1) with
  | { shell := s2, ctl := Control.returned } => ret (s2.sigprocmask How.SIG_BLOCK)
  | r => r

/-- Lines 158-163 of `eval`: the foreground branch up to the return of `waitfg`; the second
component is the local variable `job`. -/
def eval_fg_wait (cmdline : String) (forkpid : Int) (env : Env) (s3 : Shell) :
    Result × Option Nat :=
  let s4 := s3.addjob forkpid JobState.FG cmdline
  let job := getjobpid s4.jobs forkpid
  let s5 := s4.sigprocmask How.SIG_UNBLOCK
  match sigchld_handler env.atUnblock s5 with
  | { shell := s6, ctl := Control.returned } => (waitfg forkpid env.ticks s6, job)
  | r => (r, job)

/-- Lines 166-169 of `eval`: `if (job && job->state != ST)` send SIGTSTP to the group and
delete the job. -/
def eval_fg_finish (job : Option Nat) (forkpid : Int) (s7 : Shell) : Shell :=
  match job with
  | some h =>
    if stateAt s7.jobs h ≠ some JobState.ST then
      (s7.kill (-forkpid) Signal.SIGTSTP).deletejob forkpid
    else s7
  | none => s7

/-- Lines 152-156 of `eval`: the background branch. -/
def eval_bg (cmdline : String) (forkpid : Int) (s3 : Shell) : Result :=
  let s4 := s3.addjob forkpid JobState.BG cmdline
  match getjobpid s4.jobs forkpid with
  | none => { shell := s4, ctl := Control.segfault }
  | some h =>
    ret (s4.printf ("[" ++ fmt_d (jidAt s4.jobs h) ++ "] (" ++ fmt_d (pidAt s4.jobs h) ++ ") "
      ++ cmdlineAt s4.jobs h))

/-- The function `eval`.  `args` and `bg` are the result of `parseline(cmdline, args)` and
`forkpid` is what `fork` returns if it is called (`Fork` ends the shell when it is negative,
and 0 is the child, which goes on to `execve`). -/
def eval (cmdline : String) (args : List String) (bg : Bool) (forkpid : Int) (env : Env)
    (s : Shell) : Result :=
  match args with
  | [] => ret s
  | _ :: _ =>
    match builtin_cmd args env.ticks s with
    | ({ shell := s0, ctl := Control.returned }, 0) =>
      if forkpid < 0 then { shell := s0, ctl := Control.exited 1 }
      else if forkpid > 0 then
        match eval_fork_block forkpid env s0 with
        | { shell := s3, ctl := Control.returned } =>
          if bg then eval_bg cmdline forkpid s3
          else
            match eval_fg_wait cmdline forkpid env s3 with
            | ({ shell := s7, ctl := Control.returned }, job) =>
              ret (eval_fg_finish job forkpid s7)
            | (r, _) => r
        | r => r
      else { shell := s0.emit (Event.fork forkpid), ctl := Control.child }
    | (r, _) => r

/-- State of the shell when `main` enters the read/eval loop: `initjobs` has run, no signal
is blocked, nothing has been done yet. -/
def shell0 (MAXJOBS : Nat) : Shell :=
  { jobs := initjobs MAXJOBS, blocked := false, trace := [], tables := [initjobs MAXJOBS] }

/-- A shell at the read/eval loop holding the given slots, SIGCHLD not blocked. -/
def shellWith (slots : List (Option job_t)) (nextjid : Int) : Shell :=
  { jobs := { slots := slots, nextjid := nextjid }, blocked := false, trace := [],
    tables := [{ slots := slots, nextjid := nextjid }] }

/-- A job running `sleep 100`. -/
def sleeper (pid jid : Int) (state : JobState) : job_t :=
  { pid := pid, jid := jid, state := state, cmdline := "sleep 100\n" }

/-- Sixteen slots, the first ten holding stopped jobs with jids 1 to 10 and pids 100 to 109. -/
def tenStopped : Shell :=
  shellWith ((List.range 10).map (fun i => some (sleeper (100 + i) (1 + i) JobState.ST))
    ++ List.replicate 6 none) 11

/-- Sixteen slots, all of them holding background jobs (jids 1 to 16, pids 100 to 115). -/
def fullShell : Shell :=
  shellWith ((List.range 16).map (fun i => some (sleeper (100 + i) (1 + i) JobState.BG))) 17

/-- The handler collects nothing while `eval` runs. -/
def quiet : Env :=
  { afterFork := [], atUnblock := [], ticks := [] }

/-- Nothing happens before `waitfg`; the child with pid 100 exits during its first `sleep(1)`. -/
def childExits : Env :=
  { afterFork := [], atUnblock := [], ticks := [[(100, WStatus.exited 0)]] }

/-- Nothing happens before `waitfg`; the child with pid 100 is stopped by signal 20 (SIGTSTP)
during its first `sleep(1)`. -/
def childStops : Env :=
  { afterFork := [], atUnblock := [], ticks := [[(100, WStatus.stopped 20)]] }

/-- Sixteen slots, the first holding a stopped job with jid 1 and pid 100. -/
def oneStopped : Shell :=
  shellWith (some (sleeper 100 1 JobState.ST) :: List.replicate 15 none) 2

/-! ## Invariants and the reachable outcomes -/

/-- Relation between an earlier table `t` and a later one `t'`: every job of `t'` sits in a
slot where `t` has a job of the same pid, and it is in the foreground only if that one is. -/
def Weaker (t t' : JobTable) : Prop :=
  ∀ i j', slotAt t' i = some j' →
    ∃ j, slotAt t i = some j ∧ j'.pid = j.pid ∧ (j'.state = JobState.FG → j.state = JobState.FG)

/-- No two occupied slots hold the same pid. -/
def UniquePids (t : JobTable) : Prop :=
  ∀ i k a b, slotAt t i = some a → slotAt t k = some b → a.pid = b.pid → i = k

/-- Only slot `h` may hold a foreground job. -/
def OnlyFG (h : Nat) (t : JobTable) : Prop :=
  ∀ i, stateAt t i = some JobState.FG → i = h

/-- A job with this pid can only be in slot `h`. -/
def PidOnlyAt (pid : Int) (h : Nat) (t : JobTable) : Prop :=
  ∀ i j, slotAt t i = some j → j.pid = pid → i = h

/-- Shell `r` continues shell `s` with a table, and with recorded tables, that are `Weaker`
than the table of `s`. -/
def Ext (s r : Shell) : Prop :=
  Weaker s.jobs r.jobs ∧ ∀ t ∈ r.tables, t ∈ s.tables ∨ Weaker s.jobs t

/-- Invariant: pids are unique, at most `n` jobs are in the foreground, and no table the
shell has held had more than one foreground job. -/
def Good (n : Nat) (s : Shell) : Prop :=
  UniquePids s.jobs ∧ countFG s.jobs ≤ n ∧ ∀ t ∈ s.tables, countFG t ≤ 1

/-- What holds of every outcome reached from the read/eval loop. -/
def Post (r : Result) : Prop :=
  Good 1 r.shell ∧ (r.ctl = Control.returned → countFG r.shell.jobs = 0)

/-- The outcomes the shell can reach.  It starts at the read/eval loop with the empty table
of `MAXJOBS` slots.  From the loop it either evaluates a command line (any arguments: a
foreground or background launch, `fg`, `bg`, `jobs`, ...), where `fork`, if called, returns a
pid that no job of the table has; or, SIGCHLD not being blocked, the SIGCHLD handler runs on
any list of collected statuses.  Handler runs inside `eval` are part of its `Env`. -/
inductive Reach (MAXJOBS : Nat) : Result → Prop
  | start : Reach MAXJOBS (ret (shell0 MAXJOBS))
  | command (s : Shell) (cmdline : String) (args : List String) (bg : Bool) (forkpid : Int)
      (env : Env) :
      Reach MAXJOBS (ret s) → getjobpid s.jobs forkpid = none →
      Reach MAXJOBS (eval cmdline args bg forkpid env s)
  | sigchld (s : Shell) (reaped : List (Int × WStatus)) :
      Reach MAXJOBS (ret s) → s.blocked = false →
      Reach MAXJOBS (sigchld_handler reaped s)

/-! ## Lemmas on the job table -/

theorem findSlot_eq_none_iff (p : job_t → Bool) (l : List (Option job_t)) :
    findSlot p l = none ↔ ∀ j, some j ∈ l → p j = false := by
  induction l with
  | nil => simp [findSlot]
  | cons o rest ih =>
    cases o with
    | none => simp [findSlot, ih]
    | some j =>
      cases hp : p j
      · simp [findSlot, hp, ih]
      · simp only [findSlot, hp, if_true]
        constructor
        · intro h; cases h
        · intro h
          have := h j (by simp)
          simp [hp] at this

theorem findSlot_some_get (p : job_t → Bool) (l : List (Option job_t)) (i : Nat)
    (h : findSlot p l = some i) : ∃ j, l[i]? = some (some j) ∧ p j = true := by
  induction l generalizing i with
  | nil => simp [findSlot] at h
  | cons o rest ih =>
    cases o with
    | none =>
      simp only [findSlot, Option.map_eq_some'] at h
      obtain ⟨k, hk, rfl⟩ := h
      simpa using ih k hk
    | some j =>
      cases hp : p j
      · simp only [findSlot, hp, Option.map_eq_some', Bool.false_eq_true, if_false] at h
        obtain ⟨k, hk, rfl⟩ := h
        simpa using ih k hk
      · simp only [findSlot, hp, if_true, Option.some.injEq] at h
        subst h
        exact ⟨j, by simp, hp⟩

theorem findSlot_some_first (p : job_t → Bool) (l : List (Option job_t)) (i : Nat)
    (h : findSlot p l = some i) : ∀ k, k < i → ∀ j, l[k]? = some (some j) → p j = false := by
  induction l generalizing i with
  | nil => simp [findSlot] at h
  | cons o rest ih =>
    intro k hk j hj
    cases o with
    | none =>
      simp only [findSlot, Option.map_eq_some'] at h
      obtain ⟨m, hm, rfl⟩ := h
      cases k with
      | zero => simp at hj
      | succ k => exact ih m hm k (by omega) j (by simpa using hj)
    | some a =>
      cases hp : p a
      · simp only [findSlot, hp, Option.map_eq_some', Bool.false_eq_true, if_false] at h
        obtain ⟨m, hm, rfl⟩ := h
        cases k with
        | zero =>
          simp only [List.getElem?_cons_zero, Option.some.injEq] at hj
          subst hj
          exact hp
        | succ k => exact ih m hm k (by omega) j (by simpa using hj)
      · simp only [findSlot, hp, if_true, Option.some.injEq] at h
        omega

theorem slotAt_eq (t : JobTable) (h : Nat) : slotAt t h = (t.slots[h]?).getD none := by
  simp [slotAt, List.getD_eq_getElem?_getD]

theorem getjobpid_slotAt (t : JobTable) (pid : Int) (h : Nat) (hf : getjobpid t pid = some h) :
    ∃ j, slotAt t h = some j ∧ j.pid = pid := by
  obtain ⟨j, hj, hp⟩ := findSlot_some_get _ _ _ hf
  exact ⟨j, by simp [slotAt_eq, hj], by simpa using hp⟩

theorem getjobjid_slotAt (t : JobTable) (jid : Int) (h : Nat) (hf : getjobjid t jid = some h) :
    ∃ j, slotAt t h = some j ∧ j.jid = jid := by
  obtain ⟨j, hj, hp⟩ := findSlot_some_get _ _ _ hf
  exact ⟨j, by simp [slotAt_eq, hj], by simpa using hp⟩

theorem slotAt_set (l : List (Option job_t)) (n m : Int) (k : Nat) (v : Option job_t)
    (i : Nat) :
    slotAt { slots := l.set k v, nextjid := n } i
      = if k = i ∧ k < l.length then v else slotAt { slots := l, nextjid := m } i := by
  simp only [slotAt_eq, List.getElem?_set]
  by_cases hk : k = i
  · subst hk
    by_cases hl : k < l.length
    · simp [hl]
    · have : l[k]? = none := List.getElem?_eq_none (by omega)
      simp [hl, this]
  · simp [hk]

theorem slotAt_lt (t : JobTable) (h : Nat) (j : job_t) (hj : slotAt t h = some j) :
    h < t.slots.length := by
  by_contra hge
  have : t.slots[h]? = none := List.getElem?_eq_none (by omega)
  simp [slotAt_eq, this] at hj

theorem slotAt_getElem? (t : JobTable) (h : Nat) (j : job_t) :
    slotAt t h = some j ↔ t.slots[h]? = some (some j) := by
  rw [slotAt_eq]
  cases hq : t.slots[h]? with
  | none => simp
  | some o => simp

theorem getjobpid_eq_none_iff (t : JobTable) (pid : Int) :
    getjobpid t pid = none ↔ ∀ i j, slotAt t i = some j → j.pid ≠ pid := by
  rw [getjobpid, findSlot_eq_none_iff]
  constructor
  · intro h i j hj
    have hm : some j ∈ t.slots := by
      rw [slotAt_getElem?] at hj
      exact List.getElem?_mem hj
    simpa using h j hm
  · intro h j hm
    obtain ⟨i, hi⟩ := List.mem_iff_getElem?.mp hm
    have := h i j ((slotAt_getElem? t i j).mpr hi)
    simpa using this

theorem Weaker.wrefl (t : JobTable) : Weaker t t :=
  fun _ j' h => ⟨j', h, rfl, id⟩

theorem Weaker.wtrans {a b c : JobTable} (hab : Weaker a b) (hbc : Weaker b c) : Weaker a c := by
  intro i j' h
  obtain ⟨j, hj, hp, hs⟩ := hbc i j' h
  obtain ⟨k, hk, hp2, hs2⟩ := hab i j hj
  exact ⟨k, hk, hp.trans hp2, fun hfg => hs2 (hs hfg)⟩

theorem Weaker_deletejob (t : JobTable) (pid : Int) : Weaker t (deletejob t pid).1 := by
  unfold deletejob
  cases hq : getjobpid t pid with
  | none => exact Weaker.wrefl t
  | some h =>
    intro i j' hj'
    simp only [] at hj'
    rw [slotAt_set _ _ t.nextjid] at hj'
    split at hj'
    · cases hj'
    · exact ⟨j', hj', rfl, id⟩

theorem slotAt_setState (t : JobTable) (h : Nat) (st : JobState) (i : Nat) :
    slotAt (setState t h st) i
      = if i = h then (slotAt t h).map (fun j => { j with state := st }) else slotAt t i := by
  unfold setState
  cases hJ : slotAt t h with
  | none =>
    by_cases hi : i = h
    · simp [hi, hJ]
    · simp [hi]
  | some J =>
    have hlt := slotAt_lt t h J hJ
    simp only []
    rw [slotAt_set _ _ t.nextjid]
    by_cases hi : i = h
    · simp [hi, hlt]
    · have : ¬ (h = i) := fun e => hi e.symm
      simp [hi, this]

theorem Weaker_setState (t : JobTable) (h : Nat) (st : JobState) (hst : st ≠ JobState.FG) :
    Weaker t (setState t h st) := by
  intro i j' hj'
  rw [slotAt_setState] at hj'
  split at hj'
  · rename_i hi
    subst hi
    cases hJ : slotAt t i with
    | none => simp [hJ] at hj'
    | some J =>
      simp only [hJ, Option.map_some', Option.some.injEq] at hj'
      subst hj'
      exact ⟨J, rfl, rfl, fun hfg => absurd hfg hst⟩
  · exact ⟨j', hj', rfl, id⟩

theorem Weaker_getjobpid_none {t t' : JobTable} (hw : Weaker t t') (pid : Int)
    (hn : getjobpid t pid = none) : getjobpid t' pid = none := by
  rw [getjobpid_eq_none_iff] at hn ⊢
  intro i j' hj'
  obtain ⟨j, hj, hp, _⟩ := hw i j' hj'
  rw [hp]
  exact hn i j hj

theorem Weaker_UniquePids {t t' : JobTable} (hw : Weaker t t') (hu : UniquePids t) :
    UniquePids t' := by
  intro i k a b ha hb hab
  obtain ⟨a0, ha0, hpa, _⟩ := hw i a ha
  obtain ⟨b0, hb0, hpb, _⟩ := hw k b hb
  exact hu i k a0 b0 ha0 hb0 (by rw [← hpa, ← hpb, hab])

theorem getjobpid_of_unique (t : JobTable) (hu : UniquePids t) (h : Nat) (a : job_t)
    (ha : slotAt t h = some a) : getjobpid t a.pid = some h := by
  cases hq : getjobpid t a.pid with
  | none =>
    rw [getjobpid_eq_none_iff] at hq
    exact absurd rfl (hq h a ha)
  | some k =>
    obtain ⟨b, hb, hp⟩ := getjobpid_slotAt t a.pid k hq
    rw [hu k h b a hb ha hp]

/-! ## Counting foreground jobs -/

theorem countP_le_of_getD {α : Type} (p : α → Bool) (d : α) (hd : p d = false) :
    ∀ (l' l : List α), (∀ i, p (l'.getD i d) = true → p (l.getD i d) = true) →
      l'.countP p ≤ l.countP p := by
  intro l'
  induction l' with
  | nil => intro l _; simp
  | cons a rest ih =>
    intro l h
    have htail : ∀ i, p (rest.getD i d) = true → p (l.tail.getD i d) = true := by
      intro i hi
      have := h (i + 1) (by simpa using hi)
      cases l with
      | nil => simpa using this
      | cons b bs => simpa using this
    have hrec := ih l.tail htail
    cases l with
    | nil =>
      have h0 : p a = false := by
        cases hpa : p a
        · rfl
        · have := h 0 (by simpa using hpa)
          simp [hd] at this
      simp only [List.tail_nil, List.countP_nil] at hrec
      simp only [List.countP_cons, h0, List.countP_nil]
      simpa using hrec
    | cons b bs =>
      simp only [List.tail_cons] at hrec
      have hhead : p a = true → p b = true := by
        intro hpa
        simpa using h 0 (by simpa using hpa)
      simp only [List.countP_cons]
      cases hpa : p a
      · simp; omega
      · simp [hhead hpa]; omega

theorem stateAt_eq_FG_iff (t : JobTable) (i : Nat) :
    stateAt t i = some JobState.FG
      ↔ (fun o : Option job_t => decide (o.map (·.state) = some JobState.FG))
          (t.slots.getD i none) = true := by
  simp [stateAt, slotAt]

theorem Weaker_stateAt_FG {t t' : JobTable} (hw : Weaker t t') (i : Nat)
    (h : stateAt t' i = some JobState.FG) : stateAt t i = some JobState.FG := by
  unfold stateAt at h ⊢
  cases hs : slotAt t' i with
  | none => simp [hs] at h
  | some j' =>
    obtain ⟨j, hj, _, hfg⟩ := hw i j' hs
    simp only [hs, Option.map_some', Option.some.injEq] at h
    simp [hj, hfg h]

theorem Weaker_countFG {t t' : JobTable} (hw : Weaker t t') : countFG t' ≤ countFG t := by
  unfold countFG
  apply countP_le_of_getD _ none (by simp)
  intro i hi
  exact (stateAt_eq_FG_iff t i).mp (Weaker_stateAt_FG hw i ((stateAt_eq_FG_iff t' i).mpr hi))

theorem countFG_eq_zero_of_no_FG (t : JobTable) (h : ∀ i, stateAt t i ≠ some JobState.FG) :
    countFG t = 0 := by
  unfold countFG
  rw [List.countP_eq_zero]
  intro o ho
  obtain ⟨i, hi⟩ := List.mem_iff_getElem?.mp ho
  have := h i
  simp only [stateAt, slotAt_eq, hi, Option.getD_some] at this
  simpa using this

theorem no_FG_of_countFG_eq_zero (t : JobTable) (h : countFG t = 0) (i : Nat) :
    stateAt t i ≠ some JobState.FG := by
  unfold countFG at h
  rw [List.countP_eq_zero] at h
  intro hfg
  cases hs : slotAt t i with
  | none => simp [stateAt, hs] at hfg
  | some j =>
    have hm : some j ∈ t.slots := List.getElem?_mem ((slotAt_getElem? t i j).mp hs)
    have := h (some j) hm
    simp only [stateAt, hs, Option.map_some', Option.some.injEq] at hfg
    simp [hfg] at this

theorem Weaker_OnlyFG {t t' : JobTable} (hw : Weaker t t') (h : Nat) (ho : OnlyFG h t) :
    OnlyFG h t' :=
  fun i hi => ho i (Weaker_stateAt_FG hw i hi)

theorem countFG_zero_of_OnlyFG (t : JobTable) (h : Nat) (ho : OnlyFG h t)
    (hh : stateAt t h ≠ some JobState.FG) : countFG t = 0 := by
  apply countFG_eq_zero_of_no_FG
  intro i hi
  have := ho i hi
  subst this
  exact hh hi

theorem freeSlot_some (l : List (Option job_t)) (f : Nat) (h : freeSlot l = some f) :
    l[f]? = some none := by
  induction l generalizing f with
  | nil => simp [freeSlot] at h
  | cons o rest ih =>
    cases o with
    | none =>
      simp only [freeSlot, Option.some.injEq] at h
      subst h
      simp
    | some j =>
      simp only [freeSlot, Option.map_eq_some'] at h
      obtain ⟨k, hk, rfl⟩ := h
      simpa using ih k hk

theorem freeSlot_lt (l : List (Option job_t)) (f : Nat) (h : freeSlot l = some f) :
    f < l.length := by
  have := freeSlot_some l f h
  by_contra hge
  rw [List.getElem?_eq_none (by omega)] at this
  cases this

theorem slotAt_addjob (t : JobTable) (pid : Int) (st : JobState) (c : String) (f : Nat)
    (hf : freeSlot t.slots = some f) (i : Nat) :
    slotAt (addjob t pid st c).1 i
      = if i = f then some { pid := pid, jid := t.nextjid, state := st, cmdline := c }
        else slotAt t i := by
  have hlt := freeSlot_lt _ _ hf
  simp only [addjob, hf]
  rw [slotAt_set _ _ t.nextjid]
  by_cases hi : i = f
  · simp [hi, hlt]
  · have : ¬ (f = i) := fun e => hi e.symm
    simp [hi, this]

theorem addjob_full (t : JobTable) (pid : Int) (st : JobState) (c : String)
    (hf : freeSlot t.slots = none) : (addjob t pid st c).1 = t := by
  simp [addjob, hf]

theorem countFG_addjob (t : JobTable) (pid : Int) (st : JobState) (c : String) :
    countFG (addjob t pid st c).1 ≤ countFG t + (if st = JobState.FG then 1 else 0) := by
  cases hf : freeSlot t.slots with
  | none => rw [addjob_full _ _ _ _ hf]; omega
  | some f =>
    have hlt := freeSlot_lt _ _ hf
    simp only [addjob, hf, countFG]
    rw [List.countP_set _ _ _ _ hlt]
    have hfree : t.slots[f] = none := by
      have := freeSlot_some _ _ hf
      rw [List.getElem?_eq_getElem hlt] at this
      simpa using this
    cases st <;> simp [hfree]

theorem OnlyFG_addjob (t : JobTable) (pid : Int) (st : JobState) (c : String) (f : Nat)
    (hf : freeSlot t.slots = some f) (h0 : countFG t = 0) :
    OnlyFG f (addjob t pid st c).1 := by
  intro i hi
  by_contra hne
  have := no_FG_of_countFG_eq_zero t h0 i
  apply this
  simpa [stateAt, slotAt_addjob t pid st c f hf i, hne] using hi

theorem UniquePids_addjob (t : JobTable) (pid : Int) (st : JobState) (c : String)
    (hu : UniquePids t) (hfresh : getjobpid t pid = none) :
    UniquePids (addjob t pid st c).1 := by
  cases hf : freeSlot t.slots with
  | none => rw [addjob_full _ _ _ _ hf]; exact hu
  | some f =>
    rw [getjobpid_eq_none_iff] at hfresh
    intro i k a b ha hb hab
    rw [slotAt_addjob t pid st c f hf] at ha hb
    by_cases hi : i = f <;> by_cases hk : k = f
    · rw [hi, hk]
    · simp only [hi, if_true, Option.some.injEq] at ha
      simp only [hk, if_false] at hb
      exact absurd (by rw [← hab, ← ha]) (hfresh k b hb)
    · simp only [hk, if_true, Option.some.injEq] at hb
      simp only [hi, if_false] at ha
      exact absurd (by rw [hab, ← hb]) (hfresh i a ha)
    · simp only [hi, if_false] at ha
      simp only [hk, if_false] at hb
      exact hu i k a b ha hb hab

/-! ## The handler only removes and stops jobs -/

theorem Ext.erefl (s : Shell) : Ext s s :=
  ⟨Weaker.wrefl _, fun _ ht => Or.inl ht⟩

theorem Ext.etrans {a b c : Shell} (hab : Ext a b) (hbc : Ext b c) : Ext a c := by
  refine ⟨hab.1.wtrans hbc.1, fun t ht => ?_⟩
  rcases hbc.2 t ht with h | h
  · exact hab.2 t h
  · exact Or.inr (hab.1.wtrans h)

theorem Ext_emit (s : Shell) (e : Event) : Ext s (s.emit e) :=
  ⟨Weaker.wrefl _, fun _ ht => Or.inl ht⟩

theorem Ext_store (s : Shell) (t : JobTable) (hw : Weaker s.jobs t) : Ext s (s.store t) := by
  refine ⟨hw, fun u hu => ?_⟩
  simp only [Shell.store, List.mem_append, List.mem_singleton] at hu
  rcases hu with hu | hu
  · exact Or.inl hu
  · exact Or.inr (hu ▸ hw)

theorem Ext_sigprocmask (s : Shell) (how : How) : Ext s (s.sigprocmask how) :=
  ⟨Weaker.wrefl _, fun _ ht => Or.inl ht⟩

theorem Ext_deletejob (s : Shell) (pid : Int) : Ext s (s.deletejob pid) :=
  (Ext_emit s _).etrans (Ext_store _ _ (Weaker_deletejob _ _))

theorem Ext_setState (s : Shell) (h : Nat) (st : JobState) (hst : st ≠ JobState.FG) :
    Ext s (s.setState h st) :=
  Ext_store _ _ (Weaker_setState _ _ _ hst)

theorem sigchld_body_Ext (pid : Int) (status : WStatus) (s : Shell) :
    Ext s (sigchld_body pid status s).shell := by
  unfold sigchld_body
  cases status with
  | exited code => exact (Ext_emit s _).etrans (Ext_deletejob _ _)
  | signaled n =>
    simp only []
    split
    · exact Ext_emit s _
    · exact (Ext_emit s _).etrans ((Ext_deletejob _ _).etrans (Ext_emit _ _))
  | stopped n =>
    simp only []
    split
    · exact Ext_emit s _
    · exact (Ext_emit s _).etrans ((Ext_setState _ _ _ (by decide)).etrans (Ext_emit _ _))

theorem sigchld_handler_Ext (reaped : List (Int × WStatus)) (s : Shell) :
    Ext s (sigchld_handler reaped s).shell := by
  induction reaped generalizing s with
  | nil => exact Ext.erefl s
  | cons x rest ih =>
    obtain ⟨pid, status⟩ := x
    unfold sigchld_handler
    split
    · have hb := sigchld_body_Ext pid status s
      split
      · rename_i s1 heq
        rw [heq] at hb
        exact hb.etrans (ih s1)
      · exact hb
    · exact Ext.erefl s

theorem waitfg_loop_nil (h : Nat) (s : Shell) :
    waitfg_loop h [] s
      = if stateAt s.jobs h = some JobState.FG then { shell := s, ctl := Control.spinning }
        else ret s := by
  rw [waitfg_loop]

theorem waitfg_loop_cons (h : Nat) (reaped : List (Int × WStatus))
    (rest : List (List (Int × WStatus))) (s : Shell) :
    waitfg_loop h (reaped :: rest) s
      = if stateAt s.jobs h = some JobState.FG then
          if s.blocked then waitfg_loop h rest s
          else
            match sigchld_handler reaped s with
            | { shell := s1, ctl := Control.returned } => waitfg_loop h rest s1
            | r => r
        else ret s := by
  rw [waitfg_loop]

theorem waitfg_loop_Ext (h : Nat) (ticks : List (List (Int × WStatus))) (s : Shell) :
    Ext s (waitfg_loop h ticks s).shell
    ∧ ((waitfg_loop h ticks s).ctl = Control.returned
        → stateAt (waitfg_loop h ticks s).shell.jobs h ≠ some JobState.FG) := by
  induction ticks generalizing s with
  | nil =>
    rw [waitfg_loop_nil]
    split
    · exact ⟨Ext.erefl s, fun hc => by cases hc⟩
    · rename_i hne
      exact ⟨Ext.erefl s, fun _ => hne⟩
  | cons reaped rest ih =>
    rw [waitfg_loop_cons]
    split
    · split
      · exact ih s
      · have hb := sigchld_handler_Ext reaped s
        split
        · rename_i s1 heq
          rw [heq] at hb
          exact ⟨hb.etrans (ih s1).1, (ih s1).2⟩
        · rename_i r hnot
          refine ⟨hb, fun hc => ?_⟩
          exfalso
          cases hr : sigchld_handler reaped s with
          | mk sh c =>
            rw [hr] at hc
            simp only at hc
            subst hc
            exact hnot sh hr
    · rename_i hne
      exact ⟨Ext.erefl s, fun _ => hne⟩

theorem waitfg_Ext (pid : Int) (ticks : List (List (Int × WStatus))) (s : Shell) :
    Ext s (waitfg pid ticks s).shell
    ∧ ((waitfg pid ticks s).ctl = Control.returned
        → ∃ h, getjobpid s.jobs pid = some h
            ∧ stateAt (waitfg pid ticks s).shell.jobs h ≠ some JobState.FG) := by
  unfold waitfg
  cases hq : getjobpid s.jobs pid with
  | none => exact ⟨Ext.erefl s, fun hc => by cases hc⟩
  | some h => exact ⟨(waitfg_loop_Ext h ticks s).1, fun hc => ⟨h, rfl, (waitfg_loop_Ext h ticks s).2 hc⟩⟩

theorem findSlot_eq_some_of (p : job_t → Bool) (l : List (Option job_t)) (i : Nat) (j : job_t)
    (hj : l[i]? = some (some j)) (hp : p j = true)
    (hfirst : ∀ k, k < i → ∀ b, l[k]? = some (some b) → p b = false) :
    findSlot p l = some i := by
  cases hq : findSlot p l with
  | none =>
    rw [findSlot_eq_none_iff] at hq
    have := hq j (List.getElem?_mem hj)
    simp [hp] at this
  | some k =>
    obtain ⟨b, hb, hpb⟩ := findSlot_some_get p l k hq
    rcases Nat.lt_trichotomy k i with hlt | heq | hgt
    · have := hfirst k hlt b hb
      simp [hpb] at this
    · rw [heq]
    · have := findSlot_some_first p l k hq i hgt j hj
      simp [hp] at this

theorem Weaker_PidOnlyAt {t t' : JobTable} (hw : Weaker t t') (pid : Int) (h : Nat)
    (ho : PidOnlyAt pid h t) : PidOnlyAt pid h t' := by
  intro i j' hj' hp
  obtain ⟨j, hj, hpj, _⟩ := hw i j' hj'
  exact ho i j hj (by rw [← hpj, hp])

theorem PidOnlyAt_addjob (t : JobTable) (pid : Int) (st : JobState) (c : String) (f : Nat)
    (hf : freeSlot t.slots = some f) (hfresh : getjobpid t pid = none) :
    PidOnlyAt pid f (addjob t pid st c).1 := by
  rw [getjobpid_eq_none_iff] at hfresh
  intro i j hj hp
  rw [slotAt_addjob t pid st c f hf] at hj
  by_cases hi : i = f
  · exact hi
  · simp only [hi, if_false] at hj
    exact absurd hp (hfresh i j hj)

theorem getjobpid_addjob_fresh (t : JobTable) (pid : Int) (st : JobState) (c : String) :
    getjobpid t pid = none → getjobpid (addjob t pid st c).1 pid = (addjob t pid st c).2 := by
  intro hfresh
  cases hf : freeSlot t.slots with
  | none => simp [addjob, hf, hfresh]
  | some f =>
    have hpo := PidOnlyAt_addjob t pid st c f hf hfresh
    have hslot := slotAt_addjob t pid st c f hf f
    simp only [if_true] at hslot
    have h2 : (addjob t pid st c).2 = some f := by simp [addjob, hf]
    rw [h2]
    apply findSlot_eq_some_of _ _ f _ ((slotAt_getElem? _ _ _).mp hslot) (by simp)
    intro k hk b hb
    have := hpo k b ((slotAt_getElem? _ _ _).mpr hb)
    by_contra hpb
    have hbp : b.pid = pid := by simpa using hpb
    have := this hbp
    omega

theorem getjobpid_deletejob (t : JobTable) (pid : Int) (h : Nat) (ho : PidOnlyAt pid h t) :
    getjobpid (deletejob t pid).1 pid = none := by
  unfold deletejob
  cases hq : getjobpid t pid with
  | none => simpa using hq
  | some k =>
    obtain ⟨a, ha, hap⟩ := getjobpid_slotAt t pid k hq
    have hk : k = h := ho k a ha hap
    rw [getjobpid_eq_none_iff]
    intro i j hj hp
    simp only [] at hj
    rw [slotAt_set _ _ t.nextjid] at hj
    split at hj
    · cases hj
    · rename_i hne
      have hi : i = h := ho i j hj hp
      exact hne ⟨by rw [hk, hi], slotAt_lt t k a ha⟩

theorem eval_fork_block_Ext (pid : Int) (env : Env) (s : Shell) :
    Ext s (eval_fork_block pid env s).shell := by
  unfold eval_fork_block
  simp only []
  split
  · rename_i s2 heq
    split at heq
    · simp only [ret, Result.mk.injEq, and_true] at heq
      subst heq
      exact (Ext_emit s _).etrans (Ext_sigprocmask _ _)
    · have hb := sigchld_handler_Ext env.afterFork (s.emit (Event.fork pid))
      rw [heq] at hb
      exact (Ext_emit s _).etrans (hb.etrans (Ext_sigprocmask _ _))
  · rename_i r hnot
    split
    · exact Ext_emit s _
    · exact (Ext_emit s _).etrans (sigchld_handler_Ext _ _)

theorem eval_fg_wait_Ext (cmdline : String) (pid : Int) (env : Env) (s3 : Shell) :
    Ext (s3.addjob pid JobState.FG cmdline) (eval_fg_wait cmdline pid env s3).1.shell := by
  unfold eval_fg_wait
  simp only []
  have hb := sigchld_handler_Ext env.atUnblock
    ((s3.addjob pid JobState.FG cmdline).sigprocmask How.SIG_UNBLOCK)
  split
  · rename_i s6 heq
    rw [heq] at hb
    exact (Ext_sigprocmask _ _).etrans (hb.etrans (waitfg_Ext pid env.ticks s6).1)
  · exact (Ext_sigprocmask _ _).etrans hb

theorem Shell.addjob_jobs (s : Shell) (pid : Int) (st : JobState) (c : String) :
    (s.addjob pid st c).jobs = (Tsh.addjob s.jobs pid st c).1 := rfl

theorem eval_fg_wait_returned (cmdline : String) (pid : Int) (env : Env) (s3 m : Shell)
    (job : Option Nat) (hfresh : getjobpid s3.jobs pid = none)
    (hw : eval_fg_wait cmdline pid env s3 = (ret m, job)) :
    ∃ f, freeSlot s3.jobs.slots = some f ∧ job = some f
      ∧ stateAt m.jobs f ≠ some JobState.FG := by
  unfold eval_fg_wait at hw
  simp only [] at hw
  have hb := sigchld_handler_Ext env.atUnblock
    ((s3.addjob pid JobState.FG cmdline).sigprocmask How.SIG_UNBLOCK)
  split at hw
  · rename_i s6 heq
    rw [heq] at hb
    simp only [Prod.mk.injEq] at hw
    obtain ⟨hw1, hw2⟩ := hw
    have hwait := (waitfg_Ext pid env.ticks s6).2 (by rw [hw1]; rfl)
    obtain ⟨k, hk, hst⟩ := hwait
    rw [hw1] at hst
    have hw46 : Weaker (s3.addjob pid JobState.FG cmdline).jobs s6.jobs :=
      ((Ext_sigprocmask _ _).etrans hb).1
    cases hf : freeSlot s3.jobs.slots with
    | none =>
      exfalso
      have h4 : getjobpid (s3.addjob pid JobState.FG cmdline).jobs pid = none := by
        rw [Shell.addjob_jobs, addjob_full _ _ _ _ hf]; exact hfresh
      have := Weaker_getjobpid_none hw46 pid h4
      rw [this] at hk
      cases hk
    | some f =>
      have hjob : job = some f := by
        rw [← hw2, Shell.addjob_jobs, getjobpid_addjob_fresh _ _ _ _ hfresh]
        simp [addjob, hf]
      have hpo : PidOnlyAt pid f s6.jobs :=
        Weaker_PidOnlyAt hw46 pid f (PidOnlyAt_addjob _ _ _ _ f hf hfresh)
      obtain ⟨a, ha, hap⟩ := getjobpid_slotAt s6.jobs pid k hk
      have hkf : k = f := hpo k a ha hap
      rw [hkf] at hst
      exact ⟨f, rfl, hjob, hst⟩
  · rename_i r hnot
    simp only [Prod.mk.injEq] at hw
    exfalso
    exact hnot m hw.1

/-! ## do_bgfg -/

theorem do_bgfg_no_such_job (cmd arg : String) (ticks : List (List (Int × WStatus))) (s : Shell)
    (hpct : charAt arg 0 = 37)
    (hnone : getjobjid s.jobs ((charAt arg 1 : Int) - 48) = none) :
    do_bgfg [cmd, arg] ticks s
      = ret ((s.printf (if cmd = "bg" then "bg " else "fg ")).printf
          ("%(" ++ fmt_d ((charAt arg 1 : Int) - 48) ++ "): No such job\n")) := by
  simp [do_bgfg, hpct, hnone]

/-- C1, as the code has it: for every job table and every jid N in 1..9 that no job of the
table has, `fg %N` returns having printed exactly `fg %(N): No such job` and a newline (the
prefix is `fg ` without a colon), it sends no signal and leaves the job table and the
signal mask as they were. -/
theorem do_bgfg_fg_unknown_jid (s : Shell) (N : Nat) (ticks : List (List (Int × WStatus)))
    (h1 : 1 ≤ N) (h9 : N ≤ 9) (hno : ∀ j, some j ∈ s.jobs.slots → j.jid ≠ (N : Int)) :
    (do_bgfg ["fg", "%" ++ toString N] ticks s).ctl = Control.returned
    ∧ (do_bgfg ["fg", "%" ++ toString N] ticks s).shell.jobs = s.jobs
    ∧ (do_bgfg ["fg", "%" ++ toString N] ticks s).shell.tables = s.tables
    ∧ (do_bgfg ["fg", "%" ++ toString N] ticks s).shell.blocked = s.blocked
    ∧ ∃ d, (do_bgfg ["fg", "%" ++ toString N] ticks s).shell.trace = s.trace ++ d
        ∧ output d = "fg %(" ++ toString N ++ "): No such job\n"
        ∧ signals d = [] := by
  have hnone : getjobjid s.jobs (N : Int) = none := by
    rw [getjobjid, findSlot_eq_none_iff]
    intro j hj
    simpa using hno j hj
  have key : charAt ("%" ++ toString N) 0 = 37
      ∧ ((charAt ("%" ++ toString N) 1 : Nat) : Int) - 48 = (N : Int) := by
    interval_cases N <;> decide
  rw [do_bgfg_no_such_job "fg" _ ticks s key.1 (by rw [key.2]; exact hnone), key.2]
  refine ⟨rfl, rfl, rfl, rfl, [Event.printf "fg ", Event.printf
    ("%(" ++ fmt_d (N : Int) ++ "): No such job\n")], ?_, ?_, rfl⟩
  · simp [ret, Shell.printf, Shell.emit]
  · interval_cases N <;> decide

/-- Witness for `do_bgfg_fg_unknown_jid`: the empty table of 16 slots and N = 9. -/
theorem do_bgfg_fg_unknown_jid_witness :
    (do_bgfg ["fg", "%" ++ toString 9] [] (shell0 16)).ctl = Control.returned
    ∧ (do_bgfg ["fg", "%" ++ toString 9] [] (shell0 16)).shell.jobs = (shell0 16).jobs
    ∧ (do_bgfg ["fg", "%" ++ toString 9] [] (shell0 16)).shell.tables = (shell0 16).tables
    ∧ (do_bgfg ["fg", "%" ++ toString 9] [] (shell0 16)).shell.blocked = (shell0 16).blocked
    ∧ ∃ d, (do_bgfg ["fg", "%" ++ toString 9] [] (shell0 16)).shell.trace
          = (shell0 16).trace ++ d
        ∧ output d = "fg %(" ++ toString 9 ++ "): No such job\n"
        ∧ signals d = [] :=
  do_bgfg_fg_unknown_jid (shell0 16) 9 [] (by decide) (by decide)
    (by intro j hj; simp [shell0, initjobs] at hj)

/-- C1 as stated fails: on the empty table no job has jid 9, and `fg %9` prints
`fg %(9): No such job`, which is not the `fg: %(9): No such job` of the claim. -/
theorem do_bgfg_fg_unknown_jid_colon :
    getjobjid (shell0 16).jobs 9 = none
    ∧ output (do_bgfg ["fg", "%9"] [] (shell0 16)).shell.trace = "fg %(9): No such job\n"
    ∧ ¬ (output (do_bgfg ["fg", "%9"] [] (shell0 16)).shell.trace
          = "fg: %(9): No such job\n") := by
  decide

/-- C2, what the code does at the failing input: the table holds one job, jid 1, stopped;
no job has jid 12.  `bg %12` reads the single character after the percent sign, so it resumes
job 1 (SIGCONT to pid 100, state Background, banner of job 1) and prints no
"No such job". -/
theorem do_bgfg_bg_two_digit_jid :
    getjobjid oneStopped.jobs 12 = none
    ∧ (do_bgfg ["bg", "%12"] [] oneStopped).shell.trace
        = [Event.kill 100 Signal.SIGCONT, Event.printf "[1] (100) sleep 100\n"]
    ∧ (do_bgfg ["bg", "%12"] [] oneStopped).shell.jobs.slots
        = some (sleeper 100 1 JobState.BG) :: List.replicate 15 none := by
  decide

/-- C3, what the code does at the failing inputs: only a first character that is a letter is
rejected.  On the empty table `fg !x` looks up pid 0, `bg -5` pid -5 and `fg 1abc` pid 1, and
each prints "No such process"; with a stopped job of pid 100 in the table, `bg 100abc`
resumes it.  Only `abc` gets the usage message. -/
theorem do_bgfg_non_numeral_argument :
    output (do_bgfg ["fg", "!x"] [] (shell0 16)).shell.trace = "(0): No such process\n"
    ∧ output (do_bgfg ["bg", "-5"] [] (shell0 16)).shell.trace = "(-5): No such process\n"
    ∧ output (do_bgfg ["fg", "1abc"] [] (shell0 16)).shell.trace = "(1): No such process\n"
    ∧ (do_bgfg ["bg", "100abc"] [] oneStopped).shell.trace
        = [Event.kill 100 Signal.SIGCONT, Event.printf "[1] (100) sleep 100\n"]
    ∧ output (do_bgfg ["fg", "abc"] [] (shell0 16)).shell.trace
        = "fg: argument must be a PID or %jobid\n" := by
  decide

/-- C5, what the code does at the failing input: jobs 1 to 10 are stopped and the command is
`bg %10`.  The code reads jid 1 from the argument: it resumes job 1 (pid 100) and leaves job 10
(pid 109, slot 9) stopped. -/
theorem do_bgfg_bg_jid_ten :
    slotAt tenStopped.jobs 9 = some (sleeper 109 10 JobState.ST)
    ∧ (do_bgfg ["bg", "%10"] [] tenStopped).shell.trace
        = [Event.kill 100 Signal.SIGCONT, Event.printf "[1] (100) sleep 100\n"]
    ∧ slotAt (do_bgfg ["bg", "%10"] [] tenStopped).shell.jobs 9
        = some (sleeper 109 10 JobState.ST)
    ∧ slotAt (do_bgfg ["bg", "%10"] [] tenStopped).shell.jobs 0
        = some (sleeper 100 1 JobState.BG) := by
  decide

/-! ## sigchld_handler -/

theorem deletejob_slots_of_found (t : JobTable) (pid : Int) (h : Nat)
    (hreg : getjobpid t pid = some h) : (deletejob t pid).1.slots = t.slots.set h none := by
  simp [deletejob, hreg]

theorem setState_slots_of_live (t : JobTable) (h : Nat) (J : job_t) (st : JobState)
    (hJ : slotAt t h = some J) :
    (setState t h st).slots = t.slots.set h (some { J with state := st }) := by
  simp [setState, hJ]

theorem jidAt_setState (t : JobTable) (h : Nat) (st : JobState) :
    jidAt (setState t h st) h = jidAt t h := by
  unfold setState
  cases hJ : slotAt t h with
  | none => simp
  | some J =>
    have hlt : h < t.slots.length := by
      by_contra hge
      have : t.slots[h]? = none := List.getElem?_eq_none (by omega)
      simp [slotAt_eq, this] at hJ
    have hget : t.slots[h] = some J := by
      simpa [slotAt_eq, List.getElem?_eq_getElem hlt] using hJ
    simp [jidAt, slotAt_eq, List.getElem?_set, hlt, hget]

/-- C4: one iteration of the SIGCHLD handler for a collected status of a pid that is
registered (found in slot `h`, holding job `J`, so with jid `J.jid`).  Normal exit: the slot
is freed and nothing is printed.  Termination by signal `n`: the slot is freed and the one
line `Job [J.jid] (pid) terminated by signal n` is printed, with the jid read before the
removal.  Stop by signal `n`: the job stays, its state becomes Stopped, and
`Job [J.jid] (pid) stopped by signal: n` is printed.  In each case the iteration returns and
the slot array differs from the old one in slot `h` only. -/
theorem sigchld_body_registered (s : Shell) (pid : Int) (h : Nat) (J : job_t)
    (hreg : getjobpid s.jobs pid = some h) (hJ : slotAt s.jobs h = some J) :
    (∀ code, (sigchld_body pid (WStatus.exited code) s).ctl = Control.returned
      ∧ (sigchld_body pid (WStatus.exited code) s).shell.jobs.slots = s.jobs.slots.set h none
      ∧ (sigchld_body pid (WStatus.exited code) s).shell.trace
          = s.trace ++ [Event.waitpid pid (WStatus.exited code), Event.deletejob pid])
    ∧ (∀ n, (sigchld_body pid (WStatus.signaled n) s).ctl = Control.returned
      ∧ (sigchld_body pid (WStatus.signaled n) s).shell.jobs.slots = s.jobs.slots.set h none
      ∧ (sigchld_body pid (WStatus.signaled n) s).shell.trace
          = s.trace ++ [Event.waitpid pid (WStatus.signaled n), Event.deletejob pid,
              Event.printf ("Job [" ++ fmt_d J.jid ++ "] (" ++ fmt_d pid
                ++ ") terminated by signal " ++ fmt_d n ++ "\n")])
    ∧ (∀ n, (sigchld_body pid (WStatus.stopped n) s).ctl = Control.returned
      ∧ (sigchld_body pid (WStatus.stopped n) s).shell.jobs.slots
          = s.jobs.slots.set h (some { J with state := JobState.ST })
      ∧ (sigchld_body pid (WStatus.stopped n) s).shell.trace
          = s.trace ++ [Event.waitpid pid (WStatus.stopped n),
              Event.printf ("Job [" ++ fmt_d J.jid ++ "] (" ++ fmt_d pid
                ++ ") stopped by signal: " ++ fmt_d n ++ "\n")]) := by
  have hjid : jidAt s.jobs h = J.jid := by simp [jidAt, hJ]
  refine ⟨fun code => ?_, fun n => ?_, fun n => ?_⟩
  · simp [sigchld_body, ret, Shell.deletejob, Shell.store, Shell.emit,
      deletejob_slots_of_found _ _ _ hreg]
  · simp [sigchld_body, ret, Shell.deletejob, Shell.store, Shell.emit, Shell.printf, hreg,
      deletejob_slots_of_found _ _ _ hreg, hjid]
  · simp [sigchld_body, ret, Shell.setState, Shell.store, Shell.emit, Shell.printf, hreg,
      setState_slots_of_live _ _ _ _ hJ, jidAt_setState, hjid]

/-- Witness for `sigchld_body_registered`: the ten stopped jobs, pid 103 in slot 3. -/
theorem sigchld_body_registered_witness :
    (∀ code, (sigchld_body 103 (WStatus.exited code) tenStopped).ctl = Control.returned
      ∧ (sigchld_body 103 (WStatus.exited code) tenStopped).shell.jobs.slots
          = tenStopped.jobs.slots.set 3 none
      ∧ (sigchld_body 103 (WStatus.exited code) tenStopped).shell.trace
          = tenStopped.trace ++ [Event.waitpid 103 (WStatus.exited code), Event.deletejob 103])
    ∧ (∀ n, (sigchld_body 103 (WStatus.signaled n) tenStopped).ctl = Control.returned
      ∧ (sigchld_body 103 (WStatus.signaled n) tenStopped).shell.jobs.slots
          = tenStopped.jobs.slots.set 3 none
      ∧ (sigchld_body 103 (WStatus.signaled n) tenStopped).shell.trace
          = tenStopped.trace ++ [Event.waitpid 103 (WStatus.signaled n), Event.deletejob 103,
              Event.printf ("Job [" ++ fmt_d (sleeper 103 4 JobState.ST).jid ++ "] ("
                ++ fmt_d 103 ++ ") terminated by signal " ++ fmt_d n ++ "\n")])
    ∧ (∀ n, (sigchld_body 103 (WStatus.stopped n) tenStopped).ctl = Control.returned
      ∧ (sigchld_body 103 (WStatus.stopped n) tenStopped).shell.jobs.slots
          = tenStopped.jobs.slots.set 3
              (some { sleeper 103 4 JobState.ST with state := JobState.ST })
      ∧ (sigchld_body 103 (WStatus.stopped n) tenStopped).shell.trace
          = tenStopped.trace ++ [Event.waitpid 103 (WStatus.stopped n),
              Event.printf ("Job [" ++ fmt_d (sleeper 103 4 JobState.ST).jid ++ "] ("
                ++ fmt_d 103 ++ ") stopped by signal: " ++ fmt_d n ++ "\n")]) :=
  sigchld_body_registered tenStopped 103 3 (sleeper 103 4 JobState.ST) (by decide) (by decide)

/-! ## eval: order of fork, mask and registration -/

/-- C7, what the code does at the failing input: the first foreground launch of the shell.
SIGCHLD is not blocked when `eval` starts, `fork` is the first call `eval` makes and
`sigprocmask(SIG_BLOCK)` comes only after it.  When the child (pid 100) exits at once, the
handler collects it between the fork and the `addjob`: its `deletejob` finds nothing, the job
is registered afterwards, and `waitfg` keeps waiting for a job nobody will remove. -/
theorem eval_forks_before_blocking :
    (shell0 16).blocked = false
    ∧ (eval "/bin/ls\n" ["/bin/ls"] false 100
        { afterFork := [(100, WStatus.exited 0)], atUnblock := [], ticks := [[], []] }
        (shell0 16)).shell.trace
      = [Event.fork 100, Event.waitpid 100 (WStatus.exited 0), Event.deletejob 100,
         Event.sigprocmask How.SIG_BLOCK, Event.addjob 100 JobState.FG,
         Event.sigprocmask How.SIG_UNBLOCK]
    ∧ (eval "/bin/ls\n" ["/bin/ls"] false 100
        { afterFork := [(100, WStatus.exited 0)], atUnblock := [], ticks := [[], []] }
        (shell0 16)).ctl = Control.spinning
    ∧ slotAt (eval "/bin/ls\n" ["/bin/ls"] false 100
        { afterFork := [(100, WStatus.exited 0)], atUnblock := [], ticks := [[], []] }
        (shell0 16)).shell.jobs 0
      = some { pid := 100, jid := 1, state := JobState.FG, cmdline := "/bin/ls\n" } := by
  decide

/-- C8, what the code does at the failing input: all sixteen slots are taken and pid 200 is
new.  A background launch dereferences the `NULL` that `getjobpid` returns (in the `printf` of
the banner), a foreground launch dereferences it in `waitfg`; neither returns. -/
theorem eval_full_table_null :
    freeSlot fullShell.jobs.slots = none
    ∧ getjobpid fullShell.jobs 200 = none
    ∧ (eval "/bin/ls &\n" ["/bin/ls"] true 200
        { afterFork := [], atUnblock := [], ticks := [] } fullShell).ctl = Control.segfault
    ∧ (eval "/bin/ls\n" ["/bin/ls"] false 200
        { afterFork := [], atUnblock := [], ticks := [[(200, WStatus.exited 0)]] }
        fullShell).ctl = Control.segfault := by
  decide

/-- C9, what the code does at the failing input: the first background launch of the shell.
SIGCHLD is not blocked before `eval`; `eval` registers the job, prints the banner and returns
with SIGCHLD still blocked, since the background branch has no `sigprocmask(SIG_UNBLOCK)`.
A later `fg %1` then waits without end although the child exits, the handler being held off. -/
theorem eval_bg_leaves_sigchld_blocked :
    (shell0 16).blocked = false
    ∧ (eval "sleep 5 &\n" ["sleep", "5"] true 100 quiet (shell0 16)).ctl = Control.returned
    ∧ (eval "sleep 5 &\n" ["sleep", "5"] true 100 quiet (shell0 16)).shell.trace
      = [Event.fork 100, Event.sigprocmask How.SIG_BLOCK, Event.addjob 100 JobState.BG,
         Event.printf "[1] (100) sleep 5 &\n"]
    ∧ (eval "sleep 5 &\n" ["sleep", "5"] true 100 quiet (shell0 16)).shell.blocked = true
    ∧ (eval "fg %1\n" ["fg", "%1"] false 0 childExits
        (eval "sleep 5 &\n" ["sleep", "5"] true 100 quiet (shell0 16)).shell).ctl
      = Control.spinning := by
  decide

/-! ## eval: foreground launch -/

theorem builtin_cmd_external (args : List String) (ticks : List (List (Int × WStatus)))
    (s : Shell) (hext : args.getD 0 "" ∉ ["quit", "jobs", "bg", "fg", "&"]) :
    builtin_cmd args ticks s = (ret s, 0) := by
  simp only [List.mem_cons, List.mem_singleton, not_or, List.not_mem_nil, not_false_eq_true,
    and_true] at hext
  obtain ⟨h1, h2, h3, h4, h5⟩ := hext
  simp only [builtin_cmd, h1, h2, h3, h4, h5, if_false]

theorem eval_external (cmdline : String) (args : List String) (bg : Bool) (pid : Int)
    (env : Env) (s : Shell) (hargs : args ≠ [])
    (hext : args.getD 0 "" ∉ ["quit", "jobs", "bg", "fg", "&"]) (hpos : 0 < pid) :
    eval cmdline args bg pid env s
      = match eval_fork_block pid env s with
        | { shell := s3, ctl := Control.returned } =>
          if bg then eval_bg cmdline pid s3
          else
            match eval_fg_wait cmdline pid env s3 with
            | ({ shell := s7, ctl := Control.returned }, job) =>
              ret (eval_fg_finish job pid s7)
            | (r, _) => r
        | r => r := by
  cases args with
  | nil => exact absurd rfl hargs
  | cons a rest =>
    have hneg : ¬ pid < 0 := by omega
    simp only [eval, builtin_cmd_external _ _ _ hext, ret, hneg, if_false, hpos, gt_iff_lt,
      if_true]

/-- C10: a foreground launch of an external program by `eval` in the parent (`fork`
returned `pid > 0`, a pid no job of the table has) that returns.  Then `eval_fork_block`
returned in some state `s3`, and `eval_fg_wait` (registration, unblocking, `waitfg`) returned
in a state `m` with `job` pointing to a slot `h`.  If slot `h` is Stopped in `m`, `eval` ends in
`m`: it sends no signal and removes nothing.  Otherwise `eval` ends in `m` followed by
`kill(-pid, SIGTSTP)` and then `deletejob(jobs, pid)`, and the table has no job with that pid. -/
theorem eval_fg_after_waitfg (cmdline : String) (args : List String) (pid : Int) (env : Env)
    (s : Shell) (hargs : args ≠ [])
    (hext : args.getD 0 "" ∉ ["quit", "jobs", "bg", "fg", "&"]) (hpos : 0 < pid)
    (hfresh : getjobpid s.jobs pid = none)
    (hret : (eval cmdline args false pid env s).ctl = Control.returned) :
    ∃ s3 h m, eval_fork_block pid env s = ret s3
      ∧ eval_fg_wait cmdline pid env s3 = (ret m, some h)
      ∧ (stateAt m.jobs h = some JobState.ST →
          (eval cmdline args false pid env s).shell = m)
      ∧ (stateAt m.jobs h ≠ some JobState.ST →
          (eval cmdline args false pid env s).shell
            = (m.kill (-pid) Signal.SIGTSTP).deletejob pid
          ∧ getjobpid (eval cmdline args false pid env s).shell.jobs pid = none) := by
  rw [eval_external cmdline args false pid env s hargs hext hpos] at hret ⊢
  have hfbE := eval_fork_block_Ext pid env s
  cases hfb : eval_fork_block pid env s with
  | mk s3 c3 =>
    rw [hfb] at hret hfbE
    cases c3 with
    | returned =>
      simp only [Bool.false_eq_true, if_false] at hret ⊢
      have hfresh3 : getjobpid s3.jobs pid = none := Weaker_getjobpid_none hfbE.1 pid hfresh
      have hfwE := eval_fg_wait_Ext cmdline pid env s3
      cases hfw : eval_fg_wait cmdline pid env s3 with
      | mk r job =>
        rw [hfw] at hret hfwE
        obtain ⟨m, c⟩ := r
        cases c with
        | returned =>
          obtain ⟨f, hf, hjob, hst⟩ := eval_fg_wait_returned cmdline pid env s3 m job hfresh3 hfw
          subst hjob
          have hpo : PidOnlyAt pid f m.jobs :=
            Weaker_PidOnlyAt hfwE.1 pid f (PidOnlyAt_addjob _ _ _ _ f hf hfresh3)
          refine ⟨s3, f, m, rfl, hfw, ?_, ?_⟩
          · intro hST
            simp [eval_fg_finish, ret, hST]
          · intro hST
            refine ⟨by simp [eval_fg_finish, ret, hST], ?_⟩
            simp only [eval_fg_finish, ret, hST, ne_eq, not_false_eq_true, if_true]
            exact getjobpid_deletejob m.jobs pid f hpo
        | exited code => simp at hret
        | segfault => simp at hret
        | spinning => simp at hret
        | child => simp at hret
    | exited code => simp at hret
    | segfault => simp at hret
    | spinning => simp at hret
    | child => simp at hret

/-- Witness for `eval_fg_after_waitfg`: the first command of the shell is `/bin/ls`, the child
(pid 100) exits during the first `sleep(1)` of `waitfg`. -/
theorem eval_fg_after_waitfg_witness :
    ∃ s3 h m, eval_fork_block 100 childExits (shell0 16) = ret s3
      ∧ eval_fg_wait "/bin/ls\n" 100 childExits s3 = (ret m, some h)
      ∧ (stateAt m.jobs h = some JobState.ST →
          (eval "/bin/ls\n" ["/bin/ls"] false 100 childExits (shell0 16)).shell = m)
      ∧ (stateAt m.jobs h ≠ some JobState.ST →
          (eval "/bin/ls\n" ["/bin/ls"] false 100 childExits (shell0 16)).shell
            = (m.kill (-100) Signal.SIGTSTP).deletejob 100
          ∧ getjobpid (eval "/bin/ls\n" ["/bin/ls"] false 100 childExits (shell0 16)).shell.jobs
              100 = none) :=
  eval_fg_after_waitfg "/bin/ls\n" ["/bin/ls"] 100 childExits (shell0 16)
    (by decide) (by decide) (by decide) (by decide) (by decide)

/-! ## At most one foreground job -/

theorem UniquePids_setState (t : JobTable) (h : Nat) (st : JobState) (hu : UniquePids t) :
    UniquePids (setState t h st) := by
  have key : ∀ i a, slotAt (setState t h st) i = some a →
      ∃ a0, slotAt t i = some a0 ∧ a.pid = a0.pid := by
    intro i a ha
    rw [slotAt_setState] at ha
    split at ha
    · rename_i hi
      subst hi
      cases hJ : slotAt t i with
      | none => simp [hJ] at ha
      | some J =>
        simp only [hJ, Option.map_some', Option.some.injEq] at ha
        exact ⟨J, rfl, by rw [← ha]⟩
    · exact ⟨a, ha, rfl⟩
  intro i k a b ha hb hab
  obtain ⟨a0, ha0, hpa⟩ := key i a ha
  obtain ⟨b0, hb0, hpb⟩ := key k b hb
  exact hu i k a0 b0 ha0 hb0 (by rw [← hpa, ← hpb, hab])

theorem countFG_setState_le (t : JobTable) (h : Nat) (st : JobState) :
    countFG (setState t h st) ≤ countFG t + 1 := by
  unfold setState
  cases hJ : slotAt t h with
  | none => simp
  | some J =>
    have hlt := slotAt_lt t h J hJ
    simp only [countFG]
    rw [List.countP_set _ _ _ _ hlt]
    split <;> split <;> omega

theorem OnlyFG_setState (t : JobTable) (h : Nat) (st : JobState) (h0 : countFG t = 0) :
    OnlyFG h (setState t h st) := by
  intro i hi
  by_contra hne
  apply no_FG_of_countFG_eq_zero t h0 i
  simpa [stateAt, slotAt_setState, hne] using hi

theorem Good_Ext {n : Nat} {s r : Shell} (hn : n ≤ 1) (hg : Good n s) (he : Ext s r) :
    Good n r := by
  obtain ⟨hu, hc, ht⟩ := hg
  refine ⟨Weaker_UniquePids he.1 hu, le_trans (Weaker_countFG he.1) hc, fun t htm => ?_⟩
  rcases he.2 t htm with h | h
  · exact ht t h
  · exact le_trans (Weaker_countFG h) (le_trans hc hn)

theorem Good_mono {n : Nat} {s : Shell} (hg : Good n s) (hn : n ≤ 1) : Good 1 s :=
  ⟨hg.1, le_trans hg.2.1 hn, hg.2.2⟩

theorem Good_addjob (s : Shell) (pid : Int) (st : JobState) (c : String) (hg : Good 0 s)
    (hfresh : getjobpid s.jobs pid = none) :
    Good (if st = JobState.FG then 1 else 0) (s.addjob pid st c) := by
  obtain ⟨hu, hc, ht⟩ := hg
  have hcount := countFG_addjob s.jobs pid st c
  have hle : countFG (addjob s.jobs pid st c).1 ≤ (if st = JobState.FG then 1 else 0) := by
    omega
  refine ⟨UniquePids_addjob _ _ _ _ hu hfresh, hle, fun t htm => ?_⟩
  simp only [Shell.addjob, Shell.store, Shell.emit, List.mem_append, List.mem_singleton] at htm
  rcases htm with h | h
  · exact ht t h
  · rw [h]
    refine le_trans hle ?_
    split <;> omega

theorem Good_setState_FG (s : Shell) (h : Nat) (hg : Good 0 s) :
    Good 1 (s.setState h JobState.FG) := by
  obtain ⟨hu, hc, ht⟩ := hg
  have hle : countFG (setState s.jobs h JobState.FG) ≤ 1 := by
    have := countFG_setState_le s.jobs h JobState.FG
    omega
  refine ⟨UniquePids_setState _ _ _ hu, hle, fun t htm => ?_⟩
  simp only [Shell.setState, Shell.store, List.mem_append, List.mem_singleton] at htm
  rcases htm with h | h
  · exact ht t h
  · rw [h]; exact hle

theorem Post_ret_of_Ext {s r : Shell} (hg : Good 0 s) (he : Ext s r) : Post (ret r) := by
  have := Good_Ext (Nat.zero_le 1) hg he
  exact ⟨Good_mono this (Nat.zero_le 1), fun _ => Nat.le_zero.mp this.2.1⟩

theorem Post_of_Good {r : Result} (hg : Good 0 r.shell) : Post r :=
  ⟨Good_mono hg (Nat.zero_le 1), fun _ => Nat.le_zero.mp hg.2.1⟩

theorem Post_of_Ext {s : Shell} {r : Result} (hg : Good 0 s) (he : Ext s r.shell) : Post r :=
  Post_of_Good (Good_Ext (Nat.zero_le 1) hg he)

theorem Post_waitfg (pid : Int) (ticks : List (List (Int × WStatus))) (s3 : Shell) (h : Nat)
    (a : job_t) (hg : Good 1 s3) (ha : slotAt s3.jobs h = some a) (hp : a.pid = pid)
    (ho : OnlyFG h s3.jobs) :
    Good 1 (waitfg pid ticks s3).shell
    ∧ ((waitfg pid ticks s3).ctl = Control.returned →
        Good 0 (waitfg pid ticks s3).shell
        ∧ stateAt (waitfg pid ticks s3).shell.jobs h ≠ some JobState.FG) := by
  have hE := waitfg_Ext pid ticks s3
  have hg1 := Good_Ext (le_refl 1) hg hE.1
  refine ⟨hg1, fun hc => ?_⟩
  obtain ⟨k, hk, hst⟩ := hE.2 hc
  have hkh : k = h := by
    have := getjobpid_of_unique s3.jobs hg.1 h a ha
    rw [hp, hk] at this
    exact Option.some.inj this
  rw [hkh] at hst
  have h0 := countFG_zero_of_OnlyFG _ h (Weaker_OnlyFG hE.1.1 h ho) hst
  exact ⟨⟨hg1.1, by omega, hg1.2.2⟩, hst⟩

theorem Post_do_bgfg_act (cmd : String) (job : Option Nat) (ticks : List (List (Int × WStatus)))
    (s : Shell) (hg : Good 0 s) (hjob : ∀ h, job = some h → ∃ J, slotAt s.jobs h = some J) :
    Post (do_bgfg_act cmd job ticks s) := by
  unfold do_bgfg_act
  split
  · cases job with
    | none => exact Post_ret_of_Ext hg (Ext_emit s _)
    | some h =>
      obtain ⟨J, hJ⟩ := hjob h rfl
      simp only []
      have hs1 : ∀ s1 : Shell, s1 = (if stateAt s.jobs h = some JobState.ST
          then s.kill (-pidAt s.jobs h) Signal.SIGCONT else s) →
          Ext s s1 ∧ s1.jobs = s.jobs := by
        intro s1 h1
        subst h1
        split
        · exact ⟨Ext_emit s _, rfl⟩
        · exact ⟨Ext.erefl s, rfl⟩
      generalize hs1e : (if stateAt s.jobs h = some JobState.ST
          then s.kill (-pidAt s.jobs h) Signal.SIGCONT else s) = s1
      obtain ⟨he1, hj1⟩ := hs1 s1 hs1e.symm
      have hg2 : Good 0 (s1.emit (Event.tcsetpgrp (pidAt s.jobs h))) :=
        Good_Ext (Nat.zero_le 1) hg (he1.etrans (Ext_emit _ _))
      have hg3 := Good_setState_FG _ h hg2
      have hjobs3 : ((s1.emit (Event.tcsetpgrp (pidAt s.jobs h))).setState h JobState.FG).jobs
          = setState s.jobs h JobState.FG := by
        simp [Shell.setState, Shell.store, Shell.emit, hj1]
      have ha3 : slotAt ((s1.emit (Event.tcsetpgrp (pidAt s.jobs h))).setState h
          JobState.FG).jobs h = some { J with state := JobState.FG } := by
        rw [hjobs3, slotAt_setState]; simp [hJ]
      have hpid : pidAt s.jobs h = J.pid := by simp [pidAt, hJ]
      have ho3 : OnlyFG h ((s1.emit (Event.tcsetpgrp (pidAt s.jobs h))).setState h
          JobState.FG).jobs := by
        rw [hjobs3]
        exact OnlyFG_setState _ _ _ (Nat.le_zero.mp hg.2.1)
      have hw := Post_waitfg (pidAt s.jobs h) ticks _ h _ hg3 ha3 (by simp [hpid]) ho3
      split
      · rename_i s4 heq
        rw [heq] at hw
        have hg4 := (hw.2 rfl).1
        split
        · exact Post_ret_of_Ext hg4 (Ext_deletejob _ _)
        · exact Post_of_Good hg4
      · rename_i r hnot
        refine ⟨hw.1, fun hc => ?_⟩
        exfalso
        cases hr : waitfg (pidAt s.jobs h) ticks
            ((s1.emit (Event.tcsetpgrp (pidAt s.jobs h))).setState h JobState.FG) with
        | mk sh c =>
          rw [hr] at hc
          simp only at hc
          subst hc
          exact hnot sh hr
  · split
    · cases job with
      | none => exact Post_ret_of_Ext hg (Ext_emit s _)
      | some h =>
        simp only []
        exact Post_ret_of_Ext hg ((Ext_emit s _).etrans
          ((Ext_setState _ _ _ (by decide)).etrans (Ext_emit _ _)))
    · exact Post_of_Good hg

theorem Post_do_bgfg (argv : List String) (ticks : List (List (Int × WStatus))) (s : Shell)
    (hg : Good 0 s) : Post (do_bgfg argv ticks s) := by
  unfold do_bgfg
  simp only []
  split
  · split
    · split
      · exact Post_ret_of_Ext hg ((Ext_emit s _).etrans (Ext_emit _ _))
      · rename_i h hq
        apply Post_do_bgfg_act _ _ _ _ hg
        intro k hk
        cases hk
        obtain ⟨J, hJ, _⟩ := getjobjid_slotAt _ _ _ hq
        exact ⟨J, hJ⟩
    · split
      · exact Post_ret_of_Ext hg ((Ext_emit s _).etrans (Ext_emit _ _))
      · split
        · exact Post_ret_of_Ext hg (Ext_emit s _)
        · rename_i h hq
          apply Post_do_bgfg_act _ _ _ _ hg
          intro k hk
          cases hk
          obtain ⟨J, hJ, _⟩ := getjobpid_slotAt _ _ _ hq
          exact ⟨J, hJ⟩
  · apply Post_do_bgfg_act _ _ _ _ hg
    intro k hk
    cases hk

theorem Post_builtin_cmd (argv : List String) (ticks : List (List (Int × WStatus))) (s : Shell)
    (hg : Good 0 s) : Post (builtin_cmd argv ticks s).1 := by
  unfold builtin_cmd
  simp only []
  split
  · exact Post_of_Good hg
  · split
    · exact Post_ret_of_Ext hg (Ext_emit s _)
    · split
      · exact Post_do_bgfg _ _ _ hg
      · split
        · exact Post_do_bgfg _ _ _ hg
        · split
          · exact Post_of_Good hg
          · exact Post_of_Good hg

theorem builtin_cmd_not_builtin (argv : List String) (ticks : List (List (Int × WStatus)))
    (s s0 : Shell) (h : builtin_cmd argv ticks s = (ret s0, 0)) : s0 = s := by
  unfold builtin_cmd at h
  simp only [] at h
  split at h
  · simp [ret] at h
  · split at h
    · simp at h
    · split at h
      · simp at h
      · split at h
        · simp at h
        · split at h
          · simp at h
          · simp only [ret, Prod.mk.injEq, Result.mk.injEq, and_true] at h
            exact h.symm

theorem Post_eval_bg (cmdline : String) (pid : Int) (s3 : Shell) (hg : Good 0 s3)
    (hfresh : getjobpid s3.jobs pid = none) : Post (eval_bg cmdline pid s3) := by
  unfold eval_bg
  simp only []
  have hg4 : Good 0 (s3.addjob pid JobState.BG cmdline) := by
    simpa using Good_addjob s3 pid JobState.BG cmdline hg hfresh
  split
  · exact ⟨Good_mono hg4 (Nat.zero_le 1), fun hc => by cases hc⟩
  · exact Post_ret_of_Ext hg4 (Ext_emit _ _)

theorem Post_eval_fg (cmdline : String) (pid : Int) (env : Env) (s3 : Shell) (hg : Good 0 s3)
    (hfresh : getjobpid s3.jobs pid = none) :
    Post (match eval_fg_wait cmdline pid env s3 with
      | ({ shell := s7, ctl := Control.returned }, job) => ret (eval_fg_finish job pid s7)
      | (r, _) => r) := by
  have hg4 : Good 1 (s3.addjob pid JobState.FG cmdline) := by
    simpa using Good_addjob s3 pid JobState.FG cmdline hg hfresh
  have hE := eval_fg_wait_Ext cmdline pid env s3
  have hgr := Good_Ext (le_refl 1) hg4 hE
  split
  · rename_i s7 job heq
    rw [heq] at hE hgr
    have hq : eval_fg_wait cmdline pid env s3 = (ret s7, job) := heq
    obtain ⟨f, hf, hjob, hst⟩ := eval_fg_wait_returned cmdline pid env s3 s7 job hfresh hq
    have ho : OnlyFG f s7.jobs :=
      Weaker_OnlyFG hE.1 f (OnlyFG_addjob _ _ _ _ f hf (Nat.le_zero.mp hg.2.1))
    have h0 := countFG_zero_of_OnlyFG _ f ho hst
    have hg7 : Good 0 s7 := ⟨hgr.1, by omega, hgr.2.2⟩
    subst hjob
    unfold eval_fg_finish
    simp only []
    split
    · exact Post_ret_of_Ext hg7 ((Ext_emit _ _).etrans (Ext_deletejob _ _))
    · exact Post_of_Good hg7
  · rename_i r job hnot heq
    rw [heq] at hgr
    refine ⟨hgr, fun hc => ?_⟩
    exfalso
    obtain ⟨sh, c⟩ := r
    simp only at hc
    subst hc
    exact hnot sh rfl

theorem Post_eval (cmdline : String) (args : List String) (bg : Bool) (pid : Int) (env : Env)
    (s : Shell) (hg : Good 0 s) (hfresh : getjobpid s.jobs pid = none) :
    Post (eval cmdline args bg pid env s) := by
  unfold eval
  cases args with
  | nil => exact Post_of_Good hg
  | cons a rest =>
    simp only []
    have hb := Post_builtin_cmd (a :: rest) env.ticks s hg
    split
    · rename_i s0 heq
      have hs0 : s0 = s := builtin_cmd_not_builtin _ _ _ _ heq
      subst hs0
      split
      · exact ⟨Good_mono hg (Nat.zero_le 1), fun hc => by cases hc⟩
      · split
        · have hfbE := eval_fork_block_Ext pid env s0
          split
          · rename_i s3 heq3
            rw [heq3] at hfbE
            have hg3 : Good 0 s3 := Good_Ext (Nat.zero_le 1) hg hfbE
            have hfresh3 := Weaker_getjobpid_none hfbE.1 pid hfresh
            split
            · exact Post_eval_bg cmdline pid s3 hg3 hfresh3
            · exact Post_eval_fg cmdline pid env s3 hg3 hfresh3
          · exact Post_of_Ext hg hfbE
        · exact ⟨Good_mono (Good_Ext (Nat.zero_le 1) hg (Ext_emit _ _)) (Nat.zero_le 1),
            fun hc => by cases hc⟩
    · rename_i r n hnot heq
      rw [heq] at hb
      exact hb

theorem Post_sigchld_handler (reaped : List (Int × WStatus)) (s : Shell) (hg : Good 0 s) :
    Post (sigchld_handler reaped s) :=
  Post_of_Ext hg (sigchld_handler_Ext reaped s)

theorem Good_shell0 (MAXJOBS : Nat) : Good 0 (shell0 MAXJOBS) := by
  have hnone : ∀ i, slotAt (initjobs MAXJOBS) i = none := by
    intro i
    simp only [slotAt_eq, initjobs, List.getElem?_replicate]
    split <;> rfl
  have h0 : countFG (initjobs MAXJOBS) = 0 :=
    countFG_eq_zero_of_no_FG _ (fun i => by simp [stateAt, hnone i])
  refine ⟨fun i k a b ha => ?_, by simp [shell0, h0], fun t ht => ?_⟩
  · simp [shell0, hnone i] at ha
  · simp only [shell0, List.mem_singleton] at ht
    rw [ht, h0]
    exact Nat.zero_le 1

theorem Reach_Post (MAXJOBS : Nat) (r : Result) (h : Reach MAXJOBS r) : Post r := by
  induction h with
  | start => exact Post_of_Good (Good_shell0 MAXJOBS)
  | command s cmdline args bg forkpid env _ hfresh ih =>
    have hg : Good 0 s := ⟨ih.1.1, Nat.le_of_eq (ih.2 rfl), ih.1.2.2⟩
    exact Post_eval cmdline args bg forkpid env s hg hfresh
  | sigchld s reaped _ _ ih =>
    have hg : Good 0 s := ⟨ih.1.1, Nat.le_of_eq (ih.2 rfl), ih.1.2.2⟩
    exact Post_sigchld_handler reaped s hg

/-- C6: in every outcome the shell reaches from the empty job table by command lines and
runs of the SIGCHLD handler, the job table holds at most one foreground job, no value the
table has taken on the way (inside `eval`, `do_bgfg`, `waitfg` and the handler as well) held
two, and whenever control is back at the read/eval loop the table holds none. -/
theorem at_most_one_foreground (MAXJOBS : Nat) (r : Result) (h : Reach MAXJOBS r) :
    countFG r.shell.jobs ≤ 1
    ∧ (∀ t ∈ r.shell.tables, countFG t ≤ 1)
    ∧ (r.ctl = Control.returned → countFG r.shell.jobs = 0) :=
  ⟨(Reach_Post MAXJOBS r h).1.2.1, (Reach_Post MAXJOBS r h).1.2.2, (Reach_Post MAXJOBS r h).2⟩

/-- Witness for `at_most_one_foreground`: `/bin/sleep 9` is launched in the foreground and
stopped by signal 20 during `waitfg`; then `fg %1` resumes it and the child exits. -/
theorem at_most_one_foreground_witness :
    countFG (eval "fg %1\n" ["fg", "%1"] false 101 childExits
        (eval "/bin/sleep 9\n" ["/bin/sleep", "9"] false 100 childStops (shell0 16)).shell
      ).shell.jobs ≤ 1
    ∧ (∀ t ∈ (eval "fg %1\n" ["fg", "%1"] false 101 childExits
        (eval "/bin/sleep 9\n" ["/bin/sleep", "9"] false 100 childStops (shell0 16)).shell
      ).shell.tables, countFG t ≤ 1)
    ∧ ((eval "fg %1\n" ["fg", "%1"] false 101 childExits
        (eval "/bin/sleep 9\n" ["/bin/sleep", "9"] false 100 childStops (shell0 16)).shell
      ).ctl = Control.returned →
      countFG (eval "fg %1\n" ["fg", "%1"] false 101 childExits
        (eval "/bin/sleep 9\n" ["/bin/sleep", "9"] false 100 childStops (shell0 16)).shell
      ).shell.jobs = 0) :=
  at_most_one_foreground 16 _
    (Reach.command _ "fg %1\n" ["fg", "%1"] false 101 childExits
      (Reach.command (shell0 16) "/bin/sleep 9\n" ["/bin/sleep", "9"] false 100 childStops
        Reach.start (by decide))
      (by decide))

/-- For a one-digit jid the background resume does what C5 says: with job `J` found in slot
`h` for jid `j` in 1..9, `bg %j` sends SIGCONT to the pid of `J`, sets its state to Background,
prints the banner of `J`, and changes no other slot. -/
theorem do_bgfg_bg_one_digit (s : Shell) (j h : Nat) (J : job_t)
    (ticks : List (List (Int × WStatus))) (h1 : 1 ≤ j) (h9 : j ≤ 9)
    (hfind : getjobjid s.jobs (j : Int) = some h) (hJ : slotAt s.jobs h = some J) :
    (do_bgfg ["bg", "%" ++ toString j] ticks s).ctl = Control.returned
    ∧ (do_bgfg ["bg", "%" ++ toString j] ticks s).shell.trace
        = s.trace ++ [Event.kill J.pid Signal.SIGCONT,
            Event.printf ("[" ++ fmt_d J.jid ++ "] (" ++ fmt_d J.pid ++ ") " ++ J.cmdline)]
    ∧ (do_bgfg ["bg", "%" ++ toString j] ticks s).shell.jobs.slots
        = s.jobs.slots.set h (some { J with state := JobState.BG }) := by
  have key : charAt ("%" ++ toString j) 0 = 37
      ∧ ((charAt ("%" ++ toString j) 1 : Nat) : Int) - 48 = (j : Int) := by
    interval_cases j <;> decide
  have hlt := slotAt_lt _ _ _ hJ
  have hget : s.jobs.slots[h] = some J := by
    simpa [slotAt_eq, List.getElem?_eq_getElem hlt] using hJ
  have hact : do_bgfg ["bg", "%" ++ toString j] ticks s
      = do_bgfg_act "bg" (some h) ticks s := by
    simp [do_bgfg, key.1, key.2, hfind]
  rw [hact]
  have hne : ¬ ("bg" = "fg") := by decide
  simp [do_bgfg_act, hne, ret, Shell.printf, Shell.emit, Shell.kill, Shell.setState,
    Shell.store, pidAt, jidAt, cmdlineAt, hJ, setState, slotAt_eq, hlt, hget]

end Tsh
